import Mathlib

/-!
# Verification of the foodtaxi cart pricing and item-configuration engine

This file is a shallow embedding, in Lean 4, of the core cart logic of the
foodtaxi restaurant-ordering web application:

* `src/store/cart.store.ts` — the cart ledger (`getItemKey`, `findItemIndex`,
  `addItem`, `removeItem`, `updateQuantity`, `clearCart`);
* `src/components/MenuSection.tsx` — the configuration validator
  (`canAddToOrder`), the ingredient toggle (`handleIngredientToggle`) and the
  modal's initial selection state;
* `src/types.ts` — the data model (`MenuItem`, `PizzaSize`, …).

Currency amounts (JS `number`s holding prices) are modelled as rationals `ℚ`;
quantities as `Int` (the `updateQuantity` parameter may be negative); JS
`undefined`-able parameters as `Option`; JS arrays as `List`.  The JS template
string interpolation of the numeric item id is modelled by `natKeyStr`, a
decimal rendering of a natural number; JS `Array.prototype.sort()` on strings
(lexicographic by code unit) is modelled by `sortStrings`, insertion sort
under the code-point lexicographic order `strLe`.
-/

/-- `PizzaSize` from `types.ts`: a named price variant of a menu item. -/
structure PizzaSize where
  name : String
  price : ℚ
  description : Option String := none
deriving DecidableEq, Repr

/-- `PizzaStyle` from `types.ts` (as used by `cart.store.ts`): a named style
with a surcharge. -/
structure PizzaStyle where
  name : String
  price : ℚ
deriving DecidableEq, Repr

/-- `FriesOption` from `types.ts` (as used by `cart.store.ts`): a named fries
choice with a surcharge. -/
structure FriesOption where
  name : String
  price : ℚ
deriving DecidableEq, Repr

/-- `MenuItem` from `types.ts`, together with the category flags read by
`MenuSection.tsx` (`isPasta`, `isSpezialitaet`, `isBeerSelection`). -/
structure MenuItem where
  id : Nat
  number : Nat := 0
  name : String := ""
  description : Option String := none
  price : ℚ := 0
  allergens : Option String := none
  sizes : Option (List PizzaSize) := none
  isWunschPizza : Bool := false
  isPizza : Bool := false
  isPasta : Bool := false
  isSpezialitaet : Bool := false
  isBeerSelection : Bool := false
deriving DecidableEq, Repr

/-- The optional selection arguments taken by the cart-store operations
(`selectedSize`, `selectedIngredients`, `selectedExtras`, `selectedPastaType`,
`selectedSauce`, `selectedPizzaStyle`, `selectedFriesOption`).  The source
passes them positionally; we bundle them in a structure. -/
structure SelArgs where
  size : Option PizzaSize := none
  ingredients : Option (List String) := none
  extras : Option (List String) := none
  pastaType : Option String := none
  sauce : Option String := none
  style : Option PizzaStyle := none
  fries : Option FriesOption := none
deriving DecidableEq, Repr

/-- `OrderItem` from `cart.store.ts`: one cart line. -/
structure OrderItem where
  menuItem : MenuItem
  quantity : Int
  selectedSize : Option PizzaSize := none
  selectedFriesOption : Option FriesOption := none
  selectedIngredients : Option (List String) := none
  selectedExtras : Option (List String) := none
  selectedPastaType : Option String := none
  selectedSauce : Option String := none
  selectedPizzaStyle : Option PizzaStyle := none
deriving DecidableEq, Repr

/-- Decimal digit character, as produced by JS number-to-string conversion
(code point 48 is the digit 0). -/
def digitChar (d : Nat) : Char :=
  Char.ofNat (48 + d)

/-- Numeric value of a decimal digit character (inverse of `digitChar`). -/
def digitVal (c : Char) : Nat :=
  if c = '0' then 0 else if c = '1' then 1 else if c = '2' then 2
  else if c = '3' then 3 else if c = '4' then 4 else if c = '5' then 5
  else if c = '6' then 6 else if c = '7' then 7 else if c = '8' then 8
  else if c = '9' then 9 else 10

/-- Fueled most-significant-first decimal digit rendering of a natural
number. -/
def natToDigitsAux : Nat → Nat → List Char
  | 0, _ => []
  | fuel + 1, n =>
    if n < 10 then [digitChar n]
    else natToDigitsAux fuel (n / 10) ++ [digitChar (n % 10)]

/-- The decimal digit string of a natural number: the model of the JS template
interpolation of `menuItem.id` in `getItemKey`. -/
def natKeyStr (n : Nat) : String :=
  ⟨natToDigitsAux (n + 1) n⟩

/-- `Array.prototype.join(",")` from `getItemKey`. -/
def joinComma : List String → String
  | [] => ""
  | [x] => x
  | x :: y :: rest => x ++ "," ++ joinComma (y :: rest)

/-- Lexicographic comparison of character lists by code point, the order
underlying the default JS `Array.prototype.sort()` string comparison. -/
def lexLe : List Char → List Char → Bool
  | [], _ => true
  | _ :: _, [] => false
  | a :: as, b :: bs =>
    if a.val.toNat < b.val.toNat then true
    else if b.val.toNat < a.val.toNat then false
    else lexLe as bs

/-- Lexicographic order on strings (the default JS string comparison used by
`Array.prototype.sort()`). -/
def strLe (x y : String) : Prop := lexLe x.data y.data = true

instance : DecidableRel strLe := fun x y => instDecidableEqBool (lexLe x.data y.data) true

/-- `Array.prototype.sort()` (default lexicographic string order), as used on
the ingredient and extras name lists in `getItemKey`. -/
def sortStrings (l : List String) : List String :=
  List.insertionSort strLe l

/-- The `sizeKey` component of `getItemKey`:
`selectedSize ? selectedSize.name : 'default'`. -/
def sizeKeyOf : Option PizzaSize → String
  | some s => s.name
  | none => "default"

/-- The `friesKey` component of `getItemKey`:
`selectedFriesOption ? selectedFriesOption.name : 'none'`. -/
def friesKeyOf : Option FriesOption → String
  | some f => f.name
  | none => "none"

/-- The `ingredientsKey`/`extrasKey` component of `getItemKey`:
`list && list.length > 0 ? list.sort().join(',') : 'none'`. -/
def listKeyOf : Option (List String) → String
  | some l => if 0 < l.length then joinComma (sortStrings l) else "none"
  | none => "none"

/-- The `pastaTypeKey`/`sauceKey` component of `getItemKey`: `x || 'none'`
(JS `||`, so the empty string also falls back to `'none'`). -/
def optKeyOf : Option String → String
  | some x => if x = "" then "none" else x
  | none => "none"

/-- The `styleKey` component of `getItemKey`:
`selectedPizzaStyle ? selectedPizzaStyle.name : 'none'`. -/
def styleKeyOf : Option PizzaStyle → String
  | some st => st.name
  | none => "none"

/-- `getItemKey` from `cart.store.ts`: the line-identity key, a dash-joined
template string over the normalized components (only `menuItem.id` is read
from the menu item). -/
def getItemKey (menuItemId : Nat) (s : SelArgs) : String :=
  natKeyStr menuItemId ++ "-" ++ sizeKeyOf s.size ++ "-" ++ friesKeyOf s.fries
    ++ "-" ++ listKeyOf s.ingredients ++ "-" ++ listKeyOf s.extras
    ++ "-" ++ optKeyOf s.pastaType ++ "-" ++ optKeyOf s.sauce
    ++ "-" ++ styleKeyOf s.style

/-- The seven normalized selection components of the key, in key order
(everything but the id). -/
def keyComponents (s : SelArgs) : List String :=
  [sizeKeyOf s.size, friesKeyOf s.fries, listKeyOf s.ingredients,
   listKeyOf s.extras, optKeyOf s.pastaType, optKeyOf s.sauce,
   styleKeyOf s.style]

/-- The identity key of a stored cart line, as computed inside
`findItemIndex`, `removeItem` and `updateQuantity`. -/
def keyOfLine (it : OrderItem) : String :=
  getItemKey it.menuItem.id
    { size := it.selectedSize, ingredients := it.selectedIngredients,
      extras := it.selectedExtras, pastaType := it.selectedPastaType,
      sauce := it.selectedSauce, style := it.selectedPizzaStyle,
      fries := it.selectedFriesOption }

/-- `Array.prototype.findIndex` specialised to the key search of
`findItemIndex` (`none` models the JS `-1`). -/
def findItemIndexAux (key : String) : List OrderItem → Option Nat
  | [] => none
  | it :: rest =>
    if keyOfLine it = key then some 0
    else (findItemIndexAux key rest).map (· + 1)

/-- `findItemIndex` from `cart.store.ts`. -/
def findItemIndex (items : List OrderItem) (menuItem : MenuItem)
    (s : SelArgs) : Option Nat :=
  findItemIndexAux (getItemKey menuItem.id s) items

/-- In-place quantity increment at an index, modelling
`currentItems[i] = { ...currentItems[i], quantity: quantity + 1 }`. -/
def bumpAt : List OrderItem → Nat → List OrderItem
  | [], _ => []
  | it :: rest, 0 => { it with quantity := it.quantity + 1 } :: rest
  | it :: rest, n + 1 => it :: bumpAt rest n

/-- The new cart line built by the `else` branch of `addItem`: the menu item
is copied with its price overridden by the size price and the extras / pizza
style / fries surcharges, and omitted ingredient and extras lists are stored
as empty arrays (`selectedIngredients || []`). -/
def newOrderItem (m : MenuItem) (s : SelArgs) : OrderItem :=
  let p0 : ℚ := match s.size with
    | some sz => sz.price
    | none => m.price
  let p1 : ℚ := match s.extras with
    | some l => if 0 < l.length then p0 + (l.length : ℚ) * (1.5 : ℚ) else p0
    | none => p0
  let p2 : ℚ := match s.style with
    | some st => if 0 < st.price then p1 + st.price else p1
    | none => p1
  let p3 : ℚ := match s.fries with
    | some f => if 0 < f.price then p2 + f.price else p2
    | none => p2
  { menuItem := { m with price := p3 },
    quantity := 1,
    selectedSize := s.size,
    selectedFriesOption := s.fries,
    selectedIngredients := some (s.ingredients.getD []),
    selectedExtras := some (s.extras.getD []),
    selectedPastaType := s.pastaType,
    selectedSauce := s.sauce,
    selectedPizzaStyle := s.style }

/-- `addItem` from `cart.store.ts`: merge into a matching line (quantity + 1)
or append a freshly priced line of quantity 1. -/
def addItem (items : List OrderItem) (m : MenuItem) (s : SelArgs) :
    List OrderItem :=
  match findItemIndex items m s with
  | some i => bumpAt items i
  | none => items ++ [newOrderItem m s]

/-- `removeItem` from `cart.store.ts`: keep exactly the lines whose key
differs from the key resolved for the given id and selections. -/
def removeItem (items : List OrderItem) (id : Nat) (s : SelArgs) :
    List OrderItem :=
  items.filter fun it => decide (keyOfLine it ≠ getItemKey id s)

/-- `updateQuantity` from `cart.store.ts`: for `quantity ≤ 0` filter the
matching line out (same filter as `removeItem`), otherwise set the matching
line's quantity to the given absolute value. -/
def updateQuantity (items : List OrderItem) (id : Nat) (quantity : Int)
    (s : SelArgs) : List OrderItem :=
  if quantity ≤ 0 then
    items.filter fun it => decide (keyOfLine it ≠ getItemKey id s)
  else
    items.map fun it =>
      if keyOfLine it = getItemKey id s then { it with quantity := quantity }
      else it

/-- `clearCart` from `cart.store.ts`. -/
def clearCart : List OrderItem := []

/-- The identity keys of a cart, in line order. -/
def cartKeys (items : List OrderItem) : List String :=
  items.map keyOfLine

/-- One user-level cart mutation, for stating reachability invariants. -/
inductive CartOp where
  | add (m : MenuItem) (s : SelArgs)
  | remove (id : Nat) (s : SelArgs)
  | update (id : Nat) (q : Int) (s : SelArgs)
  | clear
deriving Repr

/-- Apply one cart operation to a cart. -/
def applyOp (items : List OrderItem) : CartOp → List OrderItem
  | .add m s => addItem items m s
  | .remove id s => removeItem items id s
  | .update id q s => updateQuantity items id q s
  | .clear => clearCart

/-- Run a sequence of cart operations starting from the initially empty
cart. -/
def runOps (ops : List CartOp) : List OrderItem :=
  ops.foldl applyOp []

/-- The configuration state held by the item modal in `MenuSection.tsx`
(`selectedSize`, `selectedIngredients`, `selectedExtras`,
`selectedPastaType`, `selectedSauce`); the pasta type and sauce are plain
strings initialised to `''`. -/
structure ModalState where
  selectedSize : Option PizzaSize := none
  selectedIngredients : List String := []
  selectedExtras : List String := []
  selectedPastaType : String := ""
  selectedSauce : String := ""
deriving DecidableEq, Repr

/-- The modal's initial (and reset) size selection:
`item.sizes ? item.sizes[0] : undefined` (an empty declared size list is
truthy in JS, and indexing it at 0 yields `undefined`). -/
def initSelectedSize (item : MenuItem) : Option PizzaSize :=
  match item.sizes with
  | some l => l.head?
  | none => none

/-- The modal's initial (and reset) configuration state, from the `useState`
initialisers and `resetSelections` in `MenuSection.tsx`. -/
def initModalState (item : MenuItem) : ModalState :=
  { selectedSize := initSelectedSize item }

/-- The `needsSauceSelection` condition of `canAddToOrder` in
`MenuSection.tsx`: specialties other than ids 81/82, salad-range specialties
(ids 568–573), and beer-selection items. -/
def needsSauceSelection (item : MenuItem) : Bool :=
  (item.isSpezialitaet && !(item.id = 81 || item.id = 82))
    || (decide (568 ≤ item.id) && decide (item.id ≤ 573) && item.isSpezialitaet)
    || item.isBeerSelection

/-- `canAddToOrder` from `MenuSection.tsx`: the configuration validator.
JS `!selectedPastaType` / `!selectedSauce` are true exactly on the empty
string, since the modal state holds strings. -/
def canAddToOrder (item : MenuItem) (st : ModalState) : Bool :=
  if item.isPasta && st.selectedPastaType = "" then false
  else if needsSauceSelection item && st.selectedSauce = "" then false
  else if item.isWunschPizza then
    let validIngredients :=
      st.selectedIngredients.filter fun ing => decide (ing ≠ "ohne Zutat")
    if "ohne Zutat" ∈ st.selectedIngredients then
      decide (validIngredients.length = 0)
    else
      decide (validIngredients.length = 4)
  else true

/-- `handleIngredientToggle` from `MenuSection.tsx`, as the pure state
transition it applies to the previous ingredient selection. -/
def handleIngredientToggle (ingredient : String) (prev : List String) :
    List String :=
  if ingredient = "ohne Zutat" then
    if ingredient ∈ prev then [] else [ingredient]
  else
    let filtered := prev.filter fun ing => decide (ing ≠ "ohne Zutat")
    if ingredient ∈ filtered then
      filtered.filter fun ing => decide (ing ≠ ingredient)
    else
      filtered ++ [ingredient]

/-- An ingredient selection reachable by some sequence of toggles starting
from the empty selection. -/
def reachableSelection (l : List String) : Prop :=
  ∃ seq : List String,
    seq.foldl (fun acc ing => handleIngredientToggle ing acc) [] = l

/-- Modelled from the spec (§4.3), for comparison with the code: the base
price the specification prescribes, with the `item.sizes[0].price` fallback
when the item declares sizes but no size was chosen. -/
def specBasePrice (item : MenuItem) (size : Option PizzaSize) : ℚ :=
  match size with
  | some sz => sz.price
  | none =>
    match item.sizes with
    | some (sz :: _) => sz.price
    | _ => item.price

/-- A string containing no dash can be recovered unambiguously from the
dash-joined identity key. -/
def dashFree (x : String) : Prop := ∀ c ∈ x.data, c ≠ '-'

instance : DecidablePred dashFree := fun x =>
  List.decidableBAll (fun c => c ≠ '-') x.data

/-- Numeric value of a most-significant-first digit string (left inverse of
`natToDigitsAux`). -/
def ofDigitChars (l : List Char) : Nat :=
  l.foldl (fun a c => 10 * a + digitVal c) 0

theorem data_append (x y : String) : (x ++ y).data = x.data ++ y.data := by
  cases x; cases y; rfl

theorem dash_data : ("-" : String).data = ['-'] := rfl

theorem strDataInj : ∀ {x y : String}, x.data = y.data → x = y := by
  intro x y h
  cases x; cases y
  exact congrArg String.mk h

theorem lexLe_total : ∀ x y : List Char, lexLe x y = true ∨ lexLe y x = true := by
  intro x
  induction x with
  | nil => intro y; left; rfl
  | cons a as ih =>
    intro y
    cases y with
    | nil => right; rfl
    | cons b bs =>
      by_cases hab : a.val.toNat < b.val.toNat
      · left; simp [lexLe, hab]
      · by_cases hba : b.val.toNat < a.val.toNat
        · right; simp [lexLe, hba]
        · rcases ih bs with h | h
          · left; simp [lexLe, hab, hba, h]
          · right; simp [lexLe, hab, hba, h]

theorem lexLe_trans : ∀ x y z : List Char,
    lexLe x y = true → lexLe y z = true → lexLe x z = true := by
  intro x
  induction x with
  | nil => intro y z _ _; rfl
  | cons a as ih =>
    intro y z hxy hyz
    cases y with
    | nil => simp [lexLe] at hxy
    | cons b bs =>
      cases z with
      | nil => simp [lexLe] at hyz
      | cons c cs =>
        simp only [lexLe] at hxy hyz ⊢
        by_cases hab : a.val.toNat < b.val.toNat
        · by_cases hbc : b.val.toNat < c.val.toNat
          · simp [show a.val.toNat < c.val.toNat by omega]
          · by_cases hcb : c.val.toNat < b.val.toNat
            · simp [hbc, hcb] at hyz
            · simp [show a.val.toNat < c.val.toNat by omega]
        · by_cases hba : b.val.toNat < a.val.toNat
          · simp [hab, hba] at hxy
          · simp only [hab, hba, if_false] at hxy
            by_cases hbc : b.val.toNat < c.val.toNat
            · simp [show a.val.toNat < c.val.toNat by omega]
            · by_cases hcb : c.val.toNat < b.val.toNat
              · simp [hbc, hcb] at hyz
              · simp only [hbc, hcb, if_false] at hyz
                simp only [show ¬a.val.toNat < c.val.toNat by omega,
                  show ¬c.val.toNat < a.val.toNat by omega, if_false]
                exact ih bs cs hxy hyz

theorem lexLe_antisymm : ∀ x y : List Char,
    lexLe x y = true → lexLe y x = true → x = y := by
  intro x
  induction x with
  | nil =>
    intro y _ hyx
    cases y with
    | nil => rfl
    | cons b bs => simp [lexLe] at hyx
  | cons a as ih =>
    intro y hxy hyx
    cases y with
    | nil => simp [lexLe] at hxy
    | cons b bs =>
      simp only [lexLe] at hxy hyx
      by_cases hab : a.val.toNat < b.val.toNat
      · simp [show ¬b.val.toNat < a.val.toNat by omega, hab] at hyx
      · by_cases hba : b.val.toNat < a.val.toNat
        · simp [hab, hba] at hxy
        · simp only [hab, hba, if_false] at hxy hyx
          have hv : a = b := Char.ext (UInt32.ext (by omega))
          subst hv
          rw [ih bs hxy hyx]

theorem sortStrings_eq_of_perm {l₁ l₂ : List String} (h : l₁.Perm l₂) :
    sortStrings l₁ = sortStrings l₂ := by
  haveI : IsTotal String strLe := ⟨fun x y => lexLe_total x.data y.data⟩
  haveI : IsTrans String strLe := ⟨fun x y z => lexLe_trans x.data y.data z.data⟩
  haveI : IsAntisymm String strLe :=
    ⟨fun x y hxy hyx => strDataInj (lexLe_antisymm x.data y.data hxy hyx)⟩
  exact List.eq_of_perm_of_sorted
    ((List.perm_insertionSort strLe l₁).trans
      (h.trans (List.perm_insertionSort strLe l₂).symm))
    (List.sorted_insertionSort strLe l₁) (List.sorted_insertionSort strLe l₂)

theorem digitChar_ne_dash {d : Nat} (h : d < 10) : digitChar d ≠ '-' := by
  interval_cases d <;> decide

theorem digitVal_digitChar {d : Nat} (h : d < 10) : digitVal (digitChar d) = d := by
  interval_cases d <;> decide

theorem natToDigitsAux_ne_dash :
    ∀ (fuel n : Nat), ∀ c ∈ natToDigitsAux fuel n, c ≠ '-' := by
  intro fuel
  induction fuel with
  | zero => intro n c hc; simp [natToDigitsAux] at hc
  | succ f ih =>
    intro n c hc
    by_cases h : n < 10
    · simp [natToDigitsAux, h] at hc
      subst hc
      exact digitChar_ne_dash h
    · simp only [natToDigitsAux, if_neg h, List.mem_append, List.mem_singleton] at hc
      rcases hc with hc | hc
      · exact ih (n / 10) c hc
      · subst hc
        exact digitChar_ne_dash (Nat.mod_lt _ (by omega))

theorem ofDigitChars_append_digit (l : List Char) (c : Char) :
    ofDigitChars (l ++ [c]) = 10 * ofDigitChars l + digitVal c := by
  simp [ofDigitChars, List.foldl_append]

theorem natToDigitsAux_spec :
    ∀ (fuel n : Nat), n < fuel → ofDigitChars (natToDigitsAux fuel n) = n := by
  intro fuel
  induction fuel with
  | zero => intro n hn; omega
  | succ f ih =>
    intro n hn
    by_cases h : n < 10
    · simp [natToDigitsAux, h, ofDigitChars, digitVal_digitChar h]
    · have hdiv : n / 10 < n := Nat.div_lt_self (by omega) (by omega)
      rw [natToDigitsAux, if_neg h, ofDigitChars_append_digit,
        ih (n / 10) (by omega), digitVal_digitChar (Nat.mod_lt _ (by omega))]
      omega

theorem natKeyStr_dashFree (n : Nat) : dashFree (natKeyStr n) := by
  intro c hc
  exact natToDigitsAux_ne_dash (n + 1) n c hc

theorem natKeyStr_inj {m n : Nat} (h : natKeyStr m = natKeyStr n) : m = n := by
  have hd : natToDigitsAux (m + 1) m = natToDigitsAux (n + 1) n :=
    congrArg String.data h
  have hm := natToDigitsAux_spec (m + 1) m (by omega)
  have hn := natToDigitsAux_spec (n + 1) n (by omega)
  rw [hd] at hm
  omega

theorem splitAtDash :
    ∀ (a : List Char) {b r s : List Char}, (∀ c ∈ a, c ≠ '-') → (∀ c ∈ b, c ≠ '-') →
      a ++ '-' :: r = b ++ '-' :: s → a = b ∧ r = s := by
  intro a
  induction a with
  | nil =>
    intro b r s _ hb h
    cases b with
    | nil => simpa using h
    | cons y ys =>
      simp only [List.nil_append, List.cons_append, List.cons.injEq] at h
      exact absurd h.1.symm (hb y (by simp))
  | cons x xs ih =>
    intro b r s ha hb h
    cases b with
    | nil =>
      simp only [List.cons_append, List.nil_append, List.cons.injEq] at h
      exact absurd h.1 (ha x (by simp))
    | cons y ys =>
      simp only [List.cons_append, List.cons.injEq] at h
      obtain ⟨hxy, htail⟩ := h
      obtain ⟨h1, h2⟩ := ih (fun c hc => ha c (by simp [hc]))
        (fun c hc => hb c (by simp [hc])) htail
      exact ⟨by rw [hxy, h1], h2⟩

theorem getItemKey_data (id : Nat) (s : SelArgs) :
    (getItemKey id s).data =
      (natKeyStr id).data ++ '-' :: ((sizeKeyOf s.size).data
        ++ '-' :: ((friesKeyOf s.fries).data
        ++ '-' :: ((listKeyOf s.ingredients).data
        ++ '-' :: ((listKeyOf s.extras).data
        ++ '-' :: ((optKeyOf s.pastaType).data
        ++ '-' :: ((optKeyOf s.sauce).data
        ++ '-' :: (styleKeyOf s.style).data)))))) := by
  simp [getItemKey, data_append, dash_data]

theorem getItemKey_eq_iff (id₁ id₂ : Nat) (s₁ s₂ : SelArgs)
    (h₁ : ∀ x ∈ keyComponents s₁, dashFree x)
    (h₂ : ∀ x ∈ keyComponents s₂, dashFree x) :
    getItemKey id₁ s₁ = getItemKey id₂ s₂ ↔
      id₁ = id₂ ∧ keyComponents s₁ = keyComponents s₂ := by
  constructor
  · intro h
    have hd := congrArg String.data h
    rw [getItemKey_data, getItemKey_data] at hd
    obtain ⟨e0, hd⟩ := splitAtDash _ (natKeyStr_dashFree id₁) (natKeyStr_dashFree id₂) hd
    obtain ⟨e1, hd⟩ := splitAtDash _ (h₁ _ (by simp [keyComponents]))
      (h₂ _ (by simp [keyComponents])) hd
    obtain ⟨e2, hd⟩ := splitAtDash _ (h₁ _ (by simp [keyComponents]))
      (h₂ _ (by simp [keyComponents])) hd
    obtain ⟨e3, hd⟩ := splitAtDash _ (h₁ _ (by simp [keyComponents]))
      (h₂ _ (by simp [keyComponents])) hd
    obtain ⟨e4, hd⟩ := splitAtDash _ (h₁ _ (by simp [keyComponents]))
      (h₂ _ (by simp [keyComponents])) hd
    obtain ⟨e5, hd⟩ := splitAtDash _ (h₁ _ (by simp [keyComponents]))
      (h₂ _ (by simp [keyComponents])) hd
    obtain ⟨e6, e7⟩ := splitAtDash _ (h₁ _ (by simp [keyComponents]))
      (h₂ _ (by simp [keyComponents])) hd
    refine ⟨natKeyStr_inj (strDataInj e0), ?_⟩
    simp only [keyComponents, List.cons.injEq, and_true]
    exact ⟨strDataInj e1, strDataInj e2, strDataInj e3, strDataInj e4,
      strDataInj e5, strDataInj e6, strDataInj e7⟩
  · rintro ⟨rfl, hc⟩
    simp only [keyComponents, List.cons.injEq, and_true] at hc
    obtain ⟨e1, e2, e3, e4, e5, e6, e7⟩ := hc
    simp [getItemKey, e1, e2, e3, e4, e5, e6, e7]

theorem listKeyOf_getD (o : Option (List String)) :
    listKeyOf (some (o.getD [])) = listKeyOf o := by
  cases o <;> rfl

theorem keyOfLine_quantity (it : OrderItem) (q : Int) :
    keyOfLine { it with quantity := q } = keyOfLine it := rfl

theorem keyOf_newOrderItem (m : MenuItem) (s : SelArgs) :
    keyOfLine (newOrderItem m s) = getItemKey m.id s := by
  cases s with
  | mk sz ing ext pa sa st fr =>
    simp [keyOfLine, newOrderItem, getItemKey, listKeyOf_getD]

theorem findItemIndexAux_eq_none_iff (k : String) (items : List OrderItem) :
    findItemIndexAux k items = none ↔ ∀ it ∈ items, keyOfLine it ≠ k := by
  induction items with
  | nil => simp [findItemIndexAux]
  | cons it rest ih =>
    by_cases h : keyOfLine it = k
    · simp [findItemIndexAux, h]
    · simp [findItemIndexAux, h, Option.map_eq_none', ih]

theorem findItemIndexAux_isSome_iff (k : String) (items : List OrderItem) :
    (findItemIndexAux k items).isSome = true ↔ ∃ it ∈ items, keyOfLine it = k := by
  induction items with
  | nil => simp [findItemIndexAux]
  | cons it rest ih =>
    by_cases h : keyOfLine it = k
    · simp [findItemIndexAux, h]
    · simp [findItemIndexAux, h, Option.isSome_map, ih]

theorem findItemIndexAux_append_singleton {k : String} {items : List OrderItem}
    {L : OrderItem} (h : ∀ it ∈ items, keyOfLine it ≠ k) (hL : keyOfLine L = k) :
    findItemIndexAux k (items ++ [L]) = some items.length := by
  induction items with
  | nil => simp [findItemIndexAux, hL]
  | cons it rest ih =>
    have hit : keyOfLine it ≠ k := h it (by simp)
    simp only [List.cons_append, findItemIndexAux, if_neg hit, List.append_eq]
    rw [ih fun x hx => h x (by simp [hx])]
    rfl

theorem bumpAt_length (items : List OrderItem) (i : Nat) :
    (bumpAt items i).length = items.length := by
  induction items generalizing i with
  | nil => rfl
  | cons it rest ih => cases i <;> simp [bumpAt, ih]

theorem bumpAt_append_length (items : List OrderItem) (L : OrderItem) :
    bumpAt (items ++ [L]) items.length =
      items ++ [{ L with quantity := L.quantity + 1 }] := by
  induction items with
  | nil => rfl
  | cons it rest ih => simpa [bumpAt] using ih

theorem cartKeys_bumpAt (items : List OrderItem) (i : Nat) :
    cartKeys (bumpAt items i) = cartKeys items := by
  induction items generalizing i with
  | nil => rfl
  | cons it rest ih =>
    cases i with
    | zero => simp [bumpAt, cartKeys, keyOfLine_quantity]
    | succ n => simp [bumpAt, cartKeys] at ih ⊢; exact ih n

theorem cartKeys_append (l₁ l₂ : List OrderItem) :
    cartKeys (l₁ ++ l₂) = cartKeys l₁ ++ cartKeys l₂ := by
  simp [cartKeys]

theorem nodupKeys_filter (p : OrderItem → Bool) {items : List OrderItem}
    (h : (cartKeys items).Nodup) : (cartKeys (items.filter p)).Nodup :=
  List.Nodup.sublist (List.Sublist.map keyOfLine (List.filter_sublist items)) h

theorem cartKeys_quantity_map (items : List OrderItem) (k : String) (q : Int) :
    cartKeys (items.map fun it =>
      if keyOfLine it = k then { it with quantity := q } else it) =
    cartKeys items := by
  induction items with
  | nil => rfl
  | cons it rest ih =>
    by_cases h : keyOfLine it = k <;>
      simp [cartKeys, h, keyOfLine_quantity] at ih ⊢ <;> exact ih

theorem addItem_of_none {items : List OrderItem} {m : MenuItem} {s : SelArgs}
    (h : findItemIndex items m s = none) :
    addItem items m s = items ++ [newOrderItem m s] := by
  simp [addItem, h]

theorem addItem_of_some {items : List OrderItem} {m : MenuItem} {s : SelArgs}
    {i : Nat} (h : findItemIndex items m s = some i) :
    addItem items m s = bumpAt items i := by
  simp [addItem, h]

theorem nodupKeys_addItem {items : List OrderItem} (m : MenuItem) (s : SelArgs)
    (h : (cartKeys items).Nodup) : (cartKeys (addItem items m s)).Nodup := by
  rcases hf : findItemIndex items m s with _ | i
  · have hnone : ∀ it ∈ items, keyOfLine it ≠ getItemKey m.id s :=
      (findItemIndexAux_eq_none_iff _ _).mp hf
    rw [addItem_of_none hf, cartKeys_append]
    refine List.Nodup.append h (by simp [cartKeys]) ?_
    simp only [cartKeys, List.map_cons, List.map_nil, keyOf_newOrderItem,
      List.disjoint_singleton, List.mem_map, not_exists]
    rintro it ⟨hit, hkey⟩
    exact hnone it hit hkey
  · rw [addItem_of_some hf, cartKeys_bumpAt]
    exact h

theorem nodupKeys_applyOp {items : List OrderItem} (op : CartOp)
    (h : (cartKeys items).Nodup) : (cartKeys (applyOp items op)).Nodup := by
  cases op with
  | add m s => exact nodupKeys_addItem m s h
  | remove id s => exact nodupKeys_filter _ h
  | update id q s =>
    by_cases hq : q ≤ 0
    · simp only [applyOp, updateQuantity, if_pos hq]
      exact nodupKeys_filter _ h
    · simp only [applyOp, updateQuantity, if_neg hq]
      rw [cartKeys_quantity_map]
      exact h
  | clear => simp [applyOp, clearCart, cartKeys]

theorem nodupKeys_foldl (ops : List CartOp) :
    ∀ items, (cartKeys items).Nodup → (cartKeys (ops.foldl applyOp items)).Nodup := by
  induction ops with
  | nil => intro items h; simpa using h
  | cons op rest ih => intro items h; exact ih _ (nodupKeys_applyOp op h)

/-- C1: for every finite sequence of cart operations applied to the initially
empty cart, the resulting cart never contains two lines with equal identity
keys (as computed by `getItemKey`); moreover `addItem` merges on a key match
(same length) instead of appending a duplicate (length + 1 only when no line
matches). -/
theorem cart_never_contains_duplicate_keys :
    (∀ ops : List CartOp, (cartKeys (runOps ops)).Nodup) ∧
    (∀ (items : List OrderItem) (m : MenuItem) (s : SelArgs),
      (addItem items m s).length =
        if (findItemIndex items m s).isSome = true then items.length
        else items.length + 1) := by
  constructor
  · intro ops
    exact nodupKeys_foldl ops [] (by simp [cartKeys])
  · intro items m s
    rcases hf : findItemIndex items m s with _ | i
    · simp [addItem_of_none hf, hf]
    · simp [addItem_of_some hf, hf, bumpAt_length]

theorem removeItem_of_no_match {items : List OrderItem} {id : Nat} {s : SelArgs}
    (h : ∀ it ∈ items, keyOfLine it ≠ getItemKey id s) :
    removeItem items id s = items := by
  simp only [removeItem]
  apply List.filter_eq_self.mpr
  intro it hit
  simpa using h it hit

theorem removeItem_erase (id : Nat) (s : SelArgs) :
    ∀ (items : List OrderItem) (it₀ : OrderItem), (cartKeys items).Nodup →
      it₀ ∈ items → keyOfLine it₀ = getItemKey id s →
      ∃ l₁ l₂, items = l₁ ++ it₀ :: l₂ ∧ removeItem items id s = l₁ ++ l₂ := by
  intro items
  induction items with
  | nil => intro it₀ _ hmem; cases hmem
  | cons it rest ih =>
    intro it₀ hnd hmem hkey
    rw [cartKeys, List.map_cons, List.nodup_cons] at hnd
    obtain ⟨hnotin, hnd'⟩ := hnd
    rcases List.mem_cons.mp hmem with rfl | hm
    · have hrest : ∀ x ∈ rest, keyOfLine x ≠ getItemKey id s := by
        intro x hx hcon
        apply hnotin
        rw [show keyOfLine it₀ = keyOfLine x by rw [hkey, hcon]]
        exact List.mem_map_of_mem keyOfLine hx
      refine ⟨[], rest, by simp, ?_⟩
      simp only [removeItem, List.filter_cons]
      rw [if_neg (by simp [hkey])]
      simpa only [removeItem, List.nil_append] using removeItem_of_no_match hrest
    · have hitne : keyOfLine it ≠ getItemKey id s := by
        intro hcon
        apply hnotin
        rw [hcon, ← hkey]
        exact List.mem_map_of_mem keyOfLine hm
      obtain ⟨l₁, l₂, hsplit, hfil⟩ := ih it₀ hnd' hm hkey
      refine ⟨it :: l₁, l₂, by simp [hsplit], ?_⟩
      simp only [removeItem, List.filter_cons]
      rw [if_pos (by simpa using hitne)]
      simp only [List.cons_append, List.cons.injEq, true_and]
      exact hfil

/-- C7: `updateQuantity` with quantity ≤ 0 (including negative values)
produces exactly the same cart as `removeItem`; with quantity > 0 it keeps
the length and pointwise replaces the quantity of key-matching lines with the
given absolute value, leaving every non-matching line unchanged. -/
theorem updateQuantity_semantics (items : List OrderItem) (id : Nat)
    (q : Int) (s : SelArgs) :
    (q ≤ 0 → updateQuantity items id q s = removeItem items id s) ∧
    (0 < q → (updateQuantity items id q s).length = items.length ∧
      ∀ i : Nat, (updateQuantity items id q s)[i]? =
        (items[i]?).map fun it =>
          if keyOfLine it = getItemKey id s then { it with quantity := q }
          else it) := by
  constructor
  · intro hq
    simp [updateQuantity, removeItem, if_pos hq]
  · intro hq
    have hq' : ¬q ≤ 0 := by omega
    refine ⟨by simp [updateQuantity, if_neg hq'], fun i => ?_⟩
    simp [updateQuantity, if_neg hq', List.getElem?_map]

/-- C7 witness: a concrete cart line with id 7; `updateQuantity` with -3
removes it and with 5 keeps the cart length. -/
theorem updateQuantity_semantics_witness :
    (updateQuantity [{ menuItem := { id := 7 }, quantity := 1 }] 7 (-3) {} =
      removeItem [{ menuItem := { id := 7 }, quantity := 1 }] 7 {}) ∧
    (updateQuantity [{ menuItem := { id := 7 }, quantity := 1 }] 7 5 {}).length
      = 1 :=
  ⟨(updateQuantity_semantics [{ menuItem := { id := 7 }, quantity := 1 }]
      7 (-3) {}).1 (by decide),
    ((updateQuantity_semantics [{ menuItem := { id := 7 }, quantity := 1 }]
      7 5 {}).2 (by decide)).1⟩

/-- C8: `removeItem` on an id/selection bundle whose key matches no line
leaves the cart exactly unchanged (it is a total function, so it cannot
throw), and when the cart has pairwise-distinct identity keys and a matching
line exists, it deletes exactly that one line. -/
theorem removeItem_semantics (items : List OrderItem) (id : Nat) (s : SelArgs) :
    ((∀ it ∈ items, keyOfLine it ≠ getItemKey id s) →
      removeItem items id s = items) ∧
    (∀ it₀ : OrderItem, (cartKeys items).Nodup → it₀ ∈ items →
      keyOfLine it₀ = getItemKey id s →
      ∃ l₁ l₂, items = l₁ ++ it₀ :: l₂ ∧ removeItem items id s = l₁ ++ l₂) :=
  ⟨removeItem_of_no_match, removeItem_erase id s items⟩

/-- C8 witness: removing id 9 from a one-line cart holding id 7 is a no-op,
and removing id 7 deletes that line. -/
theorem removeItem_semantics_witness :
    (removeItem [{ menuItem := { id := 7 }, quantity := 1 }] 9 {} =
      [{ menuItem := { id := 7 }, quantity := 1 }]) ∧
    (∃ l₁ l₂, [({ menuItem := { id := 7 }, quantity := 1 } : OrderItem)] =
        l₁ ++ ({ menuItem := { id := 7 }, quantity := 1 } : OrderItem) :: l₂ ∧
      removeItem [{ menuItem := { id := 7 }, quantity := 1 }] 7 {} = l₁ ++ l₂) :=
  ⟨(removeItem_semantics [{ menuItem := { id := 7 }, quantity := 1 }] 9 {}).1
      (by decide),
    (removeItem_semantics [{ menuItem := { id := 7 }, quantity := 1 }] 7 {}).2
      { menuItem := { id := 7 }, quantity := 1 } (by decide) (by decide)
      (by decide)⟩

/-- C10: omitting the ingredient or extras list behaves identically to
passing an empty list — the identity key is the same, `addItem` produces the
same cart, and a newly created line stores empty arrays (never an absent
value) for both omitted lists. -/
theorem omitted_lists_equal_empty :
    (∀ (id : Nat) (s : SelArgs),
      getItemKey id { s with ingredients := none } =
        getItemKey id { s with ingredients := some [] } ∧
      getItemKey id { s with extras := none } =
        getItemKey id { s with extras := some [] }) ∧
    (∀ (items : List OrderItem) (m : MenuItem) (s : SelArgs),
      addItem items m { s with ingredients := none } =
        addItem items m { s with ingredients := some [] } ∧
      addItem items m { s with extras := none } =
        addItem items m { s with extras := some [] }) ∧
    (∀ (m : MenuItem) (s : SelArgs),
      (newOrderItem m { s with ingredients := none, extras := none
        }).selectedIngredients = some [] ∧
      (newOrderItem m { s with ingredients := none, extras := none
        }).selectedExtras = some []) :=
  ⟨fun _ _ => ⟨rfl, rfl⟩, fun _ _ _ => ⟨rfl, rfl⟩, fun _ _ => ⟨rfl, rfl⟩⟩

/-- C3: starting from a cart with no line matching the bundle, two identical
`addItem` calls yield exactly one matching line of quantity 2 — the second
call only bumps the quantity, keeping the stored menu item (and hence the
price resolved at the first call) unchanged. -/
theorem addItem_twice_merges (items : List OrderItem) (m : MenuItem)
    (s : SelArgs) (h : ∀ it ∈ items, keyOfLine it ≠ getItemKey m.id s) :
    addItem items m s = items ++ [newOrderItem m s] ∧
    addItem (addItem items m s) m s =
      items ++ [{ newOrderItem m s with quantity := 2 }] ∧
    ((addItem (addItem items m s) m s).filter fun it =>
      decide (keyOfLine it = getItemKey m.id s)) =
      [{ newOrderItem m s with quantity := 2 }] := by
  have hf : findItemIndex items m s = none :=
    (findItemIndexAux_eq_none_iff _ _).mpr h
  have h1 : addItem items m s = items ++ [newOrderItem m s] := addItem_of_none hf
  have hf2 : findItemIndex (items ++ [newOrderItem m s]) m s =
      some items.length :=
    findItemIndexAux_append_singleton h (keyOf_newOrderItem m s)
  have h2 : addItem (addItem items m s) m s =
      items ++ [{ newOrderItem m s with quantity := 2 }] := by
    rw [h1, addItem_of_some hf2, bumpAt_append_length]
    norm_num [show (newOrderItem m s).quantity = 1 from rfl]
  refine ⟨h1, h2, ?_⟩
  rw [h2, List.filter_append]
  have hempty :
      (items.filter fun it => decide (keyOfLine it = getItemKey m.id s)) = [] := by
    apply List.filter_eq_nil_iff.mpr
    intro it hit
    simpa using h it hit
  rw [hempty]
  simp [List.filter_cons, keyOfLine_quantity, keyOf_newOrderItem]

/-- C3 witness: adding a flat-priced item twice to the empty cart yields one
line of quantity 2. -/
theorem addItem_twice_merges_witness :
    addItem [] { id := 1, price := 4 } {} =
      [] ++ [newOrderItem { id := 1, price := 4 } {}] ∧
    addItem (addItem [] { id := 1, price := 4 } {}) { id := 1, price := 4 } {} =
      [] ++ [{ newOrderItem { id := 1, price := 4 } {} with quantity := 2 }] ∧
    ((addItem (addItem [] { id := 1, price := 4 } {}) { id := 1, price := 4 }
        {}).filter fun it =>
      decide (keyOfLine it = getItemKey (MenuItem.id { id := 1, price := 4 }) {})) =
      [{ newOrderItem { id := 1, price := 4 } {} with quantity := 2 }] :=
  addItem_twice_merges [] { id := 1, price := 4 } {} (by simp)

/-- C2 (amended): when `addItem` appends a new line, the stored unit price is
base + 1.50 × (number of selected extras) + the style surcharge (if its price
is > 0) + the fries surcharge (if its price is > 0), where base is the
selected size's price when a size was passed and otherwise the item's flat
price — `addItem` never falls back to `item.sizes[0].price`. -/
theorem addItem_new_line_price (items : List OrderItem) (m : MenuItem)
    (s : SelArgs) (h : findItemIndex items m s = none) :
    addItem items m s = items ++ [newOrderItem m s] ∧
    (newOrderItem m s).menuItem.price =
      (match s.size with
        | some sz => sz.price
        | none => m.price)
      + ((s.extras.getD []).length : ℚ) * (1.5 : ℚ)
      + (match s.style with
          | some st => if 0 < st.price then st.price else 0
          | none => 0)
      + (match s.fries with
          | some f => if 0 < f.price then f.price else 0
          | none => 0) := by
  refine ⟨addItem_of_none h, ?_⟩
  cases s with
  | mk sz ing ext pa sa st fr =>
    rcases ext with _ | l <;> rcases st with _ | pst <;> rcases fr with _ | pfr <;>
      simp only [newOrderItem, Option.getD_none, Option.getD_some,
        List.length_nil, Nat.cast_zero] <;>
      (try split_ifs) <;>
      (try ring1) <;>
      (have hl0 : l.length = 0 := by omega
       rw [hl0]
       push_cast
       ring)

/-- C2 counterexample: for an item with flat price 8 that declares a size
priced 12.5, `addItem` without an explicit size stores price 8 — not the
`item.sizes[0].price` fallback of 12.5 claimed by the spec. -/
theorem addItem_price_not_sizes_head_cex :
    (addItem []
        { id := 1, price := 8, sizes := some [{ name := "Groß", price := 25/2 }] }
        {}).map (fun it => it.menuItem.price) = [8] ∧
    specBasePrice
      { id := 1, price := 8, sizes := some [{ name := "Groß", price := 25/2 }] }
      none = 25/2 ∧
    (8 : ℚ) ≠ 25/2 := by
  refine ⟨rfl, rfl, by norm_num⟩

/-- C2 witness: the spec's worked example — flat price 8 with two extras is
stored at 8 + 2 × 1.50 = 11. -/
theorem addItem_new_line_price_witness :
    addItem [] { id := 1, price := 8 } { extras := some ["Käse", "Peperoni"] } =
      [] ++ [newOrderItem { id := 1, price := 8 }
        { extras := some ["Käse", "Peperoni"] }] ∧
    (newOrderItem { id := 1, price := 8 }
      { extras := some ["Käse", "Peperoni"] }).menuItem.price = 11 := by
  have h := addItem_new_line_price [] { id := 1, price := 8 }
    { extras := some ["Käse", "Peperoni"] } rfl
  refine ⟨h.1, ?_⟩
  rw [h.2]
  norm_num

/-- C6 counterexample: `canAddToOrder` accepts an item that declares sizes
even though no size is selected — the validator performs no size check. -/
theorem canAddToOrder_no_size_check_cex :
    canAddToOrder
      { id := 1, price := 5, sizes := some [{ name := "Klein", price := 5 }] }
      {} = true ∧
    ({} : ModalState).selectedSize = none :=
  ⟨rfl, rfl⟩

/-- C6 (amended): the validator does not check the size; instead, for every
item declaring a nonempty size list, the modal's initial (and reset) state
already selects `sizes[0]`, so a size is always selected in the UI flow, and
when a size is passed `addItem` charges that size's price, never the item's
flat base price. -/
theorem size_default_selection (item : MenuItem) (sz : PizzaSize)
    (rest : List PizzaSize) (h : item.sizes = some (sz :: rest)) :
    initSelectedSize item = some sz ∧
    (initModalState item).selectedSize = some sz ∧
    (addItem [] item { size := some sz }).map (fun it => it.menuItem.price) =
      [sz.price] := by
  have h1 : initSelectedSize item = some sz := by simp [initSelectedSize, h]
  refine ⟨h1, by simp [initModalState, h1], ?_⟩
  simp [addItem, findItemIndex, findItemIndexAux, newOrderItem]

/-- C6 witness: a two-size item whose modal opens with the first size
(price 5) selected, which is then the stored price. -/
theorem size_default_selection_witness :
    initSelectedSize
      { id := 2, price := 7,
        sizes := some [{ name := "Klein", price := 5 }, { name := "Groß", price := 9 }] } =
      some { name := "Klein", price := 5 } ∧
    (initModalState
      { id := 2, price := 7,
        sizes := some [{ name := "Klein", price := 5 }, { name := "Groß", price := 9 }] }).selectedSize =
      some { name := "Klein", price := 5 } ∧
    (addItem []
      { id := 2, price := 7,
        sizes := some [{ name := "Klein", price := 5 }, { name := "Groß", price := 9 }] }
      { size := some { name := "Klein", price := 5 } }).map
        (fun it => it.menuItem.price) = [5] :=
  size_default_selection _ { name := "Klein", price := 5 }
    [{ name := "Groß", price := 9 }] rfl

theorem sentinel_not_mem_toggle (prev : List String) (ing : String)
    (h : ing ≠ "ohne Zutat") :
    "ohne Zutat" ∉ handleIngredientToggle ing prev := by
  simp only [handleIngredientToggle, if_neg h]
  by_cases hmem : ing ∈ prev.filter fun x => decide (x ≠ "ohne Zutat")
  · rw [if_pos hmem]
    intro hcon
    have h1 := (List.mem_filter.mp hcon).1
    have h2 := (List.mem_filter.mp h1).2
    simp at h2
  · rw [if_neg hmem]
    intro hcon
    rcases List.mem_append.mp hcon with hc | hc
    · have h2 := (List.mem_filter.mp hc).2
      simp at h2
    · rw [List.mem_singleton] at hc
      exact h hc.symm

theorem toggle_sentinel_cases (prev : List String) :
    handleIngredientToggle "ohne Zutat" prev = [] ∨
      handleIngredientToggle "ohne Zutat" prev = ["ohne Zutat"] := by
  unfold handleIngredientToggle
  rw [if_pos rfl]
  by_cases h : "ohne Zutat" ∈ prev
  · left; rw [if_pos h]
  · right; rw [if_neg h]

theorem sentinel_invariant_foldl (seq : List String) :
    ∀ acc : List String, ("ohne Zutat" ∈ acc → acc = ["ohne Zutat"]) →
      "ohne Zutat" ∈ seq.foldl (fun a i => handleIngredientToggle i a) acc →
      seq.foldl (fun a i => handleIngredientToggle i a) acc = ["ohne Zutat"] := by
  induction seq with
  | nil => intro acc h; simpa using h
  | cons i rest ih =>
    intro acc _
    apply ih
    show "ohne Zutat" ∈ handleIngredientToggle i acc →
      handleIngredientToggle i acc = ["ohne Zutat"]
    by_cases hi : i = "ohne Zutat"
    · subst hi
      rcases toggle_sentinel_cases acc with hc | hc <;> rw [hc] <;> simp
    · intro hcon
      exact absurd hcon (sentinel_not_mem_toggle acc i hi)

theorem toggle_preserves_nodup (ing : String) (prev : List String)
    (h : prev.Nodup) : (handleIngredientToggle ing prev).Nodup := by
  by_cases hi : ing = "ohne Zutat"
  · subst hi
    rcases toggle_sentinel_cases prev with hc | hc <;> rw [hc] <;> simp
  · simp only [handleIngredientToggle, if_neg hi]
    by_cases hmem : ing ∈ prev.filter fun x => decide (x ≠ "ohne Zutat")
    · rw [if_pos hmem]
      exact (h.filter _).filter _
    · rw [if_neg hmem]
      refine List.Nodup.append (h.filter _) (by simp) ?_
      rw [List.disjoint_singleton]
      exact hmem

theorem reachableSelection_nodup {l : List String}
    (h : reachableSelection l) : l.Nodup := by
  obtain ⟨seq, hseq⟩ := h
  have hall : ∀ (s acc : List String), acc.Nodup →
      (s.foldl (fun a i => handleIngredientToggle i a) acc).Nodup := by
    intro s
    induction s with
    | nil => intro acc hacc; simpa using hacc
    | cons i rest ih => intro acc hacc; exact ih _ (toggle_preserves_nodup i acc hacc)
  exact hseq ▸ hall seq [] (by simp)

/-- C9: a reachable ingredient selection never pairs the sentinel
`"ohne Zutat"` with a real ingredient — toggling the sentinel yields `[]` or
exactly `["ohne Zutat"]`, and toggling a real ingredient always removes the
sentinel. -/
theorem ingredient_toggle_sentinel_invariant :
    (∀ l : List String, reachableSelection l → "ohne Zutat" ∈ l →
      l = ["ohne Zutat"]) ∧
    (∀ prev : List String, handleIngredientToggle "ohne Zutat" prev = [] ∨
      handleIngredientToggle "ohne Zutat" prev = ["ohne Zutat"]) ∧
    (∀ (prev : List String) (ing : String), ing ≠ "ohne Zutat" →
      "ohne Zutat" ∉ handleIngredientToggle ing prev) := by
  refine ⟨?_, toggle_sentinel_cases, fun prev ing h => sentinel_not_mem_toggle prev ing h⟩
  rintro l ⟨seq, hseq⟩ hmem
  exact hseq ▸ sentinel_invariant_foldl seq [] (by simp) (hseq ▸ hmem)

/-- C9 witness: the invariant applied at the selection reached by toggling
the sentinel once, and the two toggle clauses at concrete inputs. -/
theorem ingredient_toggle_sentinel_invariant_witness :
    (["ohne Zutat"] : List String) = ["ohne Zutat"] ∧
    (handleIngredientToggle "ohne Zutat" ["Salami"] = [] ∨
      handleIngredientToggle "ohne Zutat" ["Salami"] = ["ohne Zutat"]) ∧
    "ohne Zutat" ∉ handleIngredientToggle "Salami" ["ohne Zutat"] :=
  ⟨ingredient_toggle_sentinel_invariant.1 ["ohne Zutat"]
      ⟨["ohne Zutat"], by decide⟩ (by decide),
    ingredient_toggle_sentinel_invariant.2.1 ["Salami"],
    ingredient_toggle_sentinel_invariant.2.2 ["ohne Zutat"] "Salami" (by decide)⟩

/-- C5: for a build-your-own (Wunsch Pizza) item whose pasta and sauce
requirements are satisfied, and a duplicate-free ingredient selection (all
selections reachable through the toggle are duplicate-free, see
`reachableSelection_nodup`), the validator accepts iff the selection has
exactly 4 (distinct) non-sentinel ingredients or is exactly
`["ohne Zutat"]`. -/
theorem canAddToOrder_wunsch_iff (item : MenuItem) (st : ModalState)
    (hW : item.isWunschPizza = true)
    (hP : item.isPasta = true → st.selectedPastaType ≠ "")
    (hS : needsSauceSelection item = true → st.selectedSauce ≠ "")
    (hnd : st.selectedIngredients.Nodup) :
    canAddToOrder item st = true ↔
      ((st.selectedIngredients.length = 4 ∧
        "ohne Zutat" ∉ st.selectedIngredients) ∨
        st.selectedIngredients = ["ohne Zutat"]) := by
  have h1 : (item.isPasta && decide (st.selectedPastaType = "")) = false := by
    cases hip : item.isPasta with
    | false => simp
    | true => simp only [Bool.true_and]; exact decide_eq_false (hP hip)
  have h2 : (needsSauceSelection item && decide (st.selectedSauce = "")) = false := by
    cases hns : needsSauceSelection item with
    | false => simp
    | true => simp only [Bool.true_and]; exact decide_eq_false (hS hns)
  unfold canAddToOrder
  rw [if_neg (by simp [h1]), if_neg (by simp [h2]), if_pos hW]
  show (if "ohne Zutat" ∈ st.selectedIngredients then
      decide ((st.selectedIngredients.filter
        fun ing => decide (ing ≠ "ohne Zutat")).length = 0)
    else
      decide ((st.selectedIngredients.filter
        fun ing => decide (ing ≠ "ohne Zutat")).length = 4)) = true ↔ _
  by_cases hmem : "ohne Zutat" ∈ st.selectedIngredients
  · rw [if_pos hmem]
    simp only [decide_eq_true_eq]
    constructor
    · intro hlen
      right
      have hfil : st.selectedIngredients.filter
          (fun ing => decide (ing ≠ "ohne Zutat")) = [] :=
        List.length_eq_zero.mp hlen
      have hall : ∀ x ∈ st.selectedIngredients, x = "ohne Zutat" := by
        intro x hx
        by_contra hne
        have hxf : x ∈ st.selectedIngredients.filter
            (fun ing => decide (ing ≠ "ohne Zutat")) :=
          List.mem_filter.mpr ⟨hx, by simpa using hne⟩
        rw [hfil] at hxf
        cases hxf
      cases hl : st.selectedIngredients with
      | nil => rw [hl] at hmem; cases hmem
      | cons a as =>
        have ha : a = "ohne Zutat" :=
          hall a (by rw [hl]; exact List.mem_cons_self a as)
        cases has : as with
        | nil => rw [ha]
        | cons b bs =>
          have hb : b = "ohne Zutat" := hall b (by rw [hl, has]; simp)
          exfalso
          rw [hl, has, List.nodup_cons] at hnd
          apply hnd.1
          rw [ha, ← hb]
          simp
    · rintro (⟨_, hnot⟩ | heq)
      · exact absurd hmem hnot
      · rw [heq]
        rfl
  · rw [if_neg hmem]
    simp only [decide_eq_true_eq]
    have hfil : st.selectedIngredients.filter
        (fun ing => decide (ing ≠ "ohne Zutat")) = st.selectedIngredients := by
      apply List.filter_eq_self.mpr
      intro a ha
      simp only [decide_eq_true_eq]
      intro hc
      exact hmem (hc ▸ ha)
    rw [hfil]
    constructor
    · intro h4
      exact Or.inl ⟨h4, hmem⟩
    · rintro (⟨h4, _⟩ | heq)
      · exact h4
      · rw [heq] at hmem
        simp at hmem

/-- C5 witness: a Wunsch Pizza with four distinct real ingredients selected
satisfies the characterization. -/
theorem canAddToOrder_wunsch_iff_witness :
    canAddToOrder { id := 3, isWunschPizza := true }
      { selectedIngredients := ["Salami", "Mais", "Ananas", "Spinat"] } = true ↔
      (((["Salami", "Mais", "Ananas", "Spinat"] : List String).length = 4 ∧
        "ohne Zutat" ∉ (["Salami", "Mais", "Ananas", "Spinat"] : List String)) ∨
        (["Salami", "Mais", "Ananas", "Spinat"] : List String) = ["ohne Zutat"]) :=
  canAddToOrder_wunsch_iff { id := 3, isWunschPizza := true }
    { selectedIngredients := ["Salami", "Mais", "Ananas", "Spinat"] }
    rfl (by simp) (by decide) (by decide)

/-- C4 counterexample: the raw extras lists `["A,B"]` and `["A","B"]` are
different as sets, yet `getItemKey` maps them to the same key (the comma used
by the join collides with a comma inside a name), so key equality is not
equivalent to set agreement of the raw lists. -/
theorem getItemKey_not_set_identity_cex :
    getItemKey 1 { extras := some ["A,B"] } =
      getItemKey 1 { extras := some ["A", "B"] } ∧
    "A" ∈ (["A", "B"] : List String) ∧ "A" ∉ (["A,B"] : List String) :=
  ⟨by decide, by decide, by decide⟩

/-- C4 (amended): provided no normalized key component contains the `-`
delimiter, two bundles produce equal keys iff they agree on the numeric id
and on all seven normalized components (size, fries, sorted-joined
ingredients, sorted-joined extras, pasta, sauce, style); permuting the
ingredient or extras list never changes the key; and a key match is exactly
the merge criterion of `findItemIndex`. -/
theorem getItemKey_identity_characterization :
    (∀ (id₁ id₂ : Nat) (s₁ s₂ : SelArgs),
      (∀ x ∈ keyComponents s₁, dashFree x) →
      (∀ x ∈ keyComponents s₂, dashFree x) →
      (getItemKey id₁ s₁ = getItemKey id₂ s₂ ↔
        id₁ = id₂ ∧ keyComponents s₁ = keyComponents s₂)) ∧
    (∀ (id : Nat) (s : SelArgs) (l₁ l₂ : List String), l₁.Perm l₂ →
      getItemKey id { s with ingredients := some l₁ } =
        getItemKey id { s with ingredients := some l₂ } ∧
      getItemKey id { s with extras := some l₁ } =
        getItemKey id { s with extras := some l₂ }) ∧
    (∀ (items : List OrderItem) (m : MenuItem) (s : SelArgs),
      (findItemIndex items m s).isSome = true ↔
        ∃ it ∈ items, keyOfLine it = getItemKey m.id s) := by
  refine ⟨getItemKey_eq_iff, ?_, fun items m s => findItemIndexAux_isSome_iff _ _⟩
  intro id s l₁ l₂ hperm
  have hkey : listKeyOf (some l₁) = listKeyOf (some l₂) := by
    simp only [listKeyOf]
    rw [sortStrings_eq_of_perm hperm, hperm.length_eq]
  constructor <;> simp [getItemKey, hkey]

/-- C4 witness: the characterization applied at concrete bundles — a sized
bundle versus an empty one, the spec's swapped-extras example, and the merge
criterion on the empty cart. -/
theorem getItemKey_identity_characterization_witness :
    (getItemKey 1 { size := some { name := "Klein", price := 5 } } =
        getItemKey 1 {} ↔
      (1 : Nat) = 1 ∧
        keyComponents { size := some { name := "Klein", price := 5 } } =
          keyComponents {}) ∧
    (getItemKey 2 { ingredients := some ["Käse", "Peperoni"] } =
        getItemKey 2 { ingredients := some ["Peperoni", "Käse"] } ∧
      getItemKey 2 { extras := some ["Käse", "Peperoni"] } =
        getItemKey 2 { extras := some ["Peperoni", "Käse"] }) ∧
    ((findItemIndex [] { id := 4 } {}).isSome = true ↔
      ∃ it ∈ ([] : List OrderItem),
        keyOfLine it = getItemKey (MenuItem.id { id := 4 }) {}) :=
  ⟨getItemKey_identity_characterization.1 1 1
      { size := some { name := "Klein", price := 5 } } {} (by decide) (by decide),
    getItemKey_identity_characterization.2.1 2 {}
      ["Käse", "Peperoni"] ["Peperoni", "Käse"] (by decide),
    getItemKey_identity_characterization.2.2 [] { id := 4 } {}⟩
